import Mathlib

/-!
Shallow embedding of the shrimp S3 multipart uploader (Go).

Modelling conventions used throughout this development:

* Go strings are modelled as `List Char` (named `Str` below); the file and
  standard-input boundaries are out of scope, so functions that read a file
  take the scanner's line list (`List Str`) directly.
* Go `int64`/`int32` arithmetic is modelled on `Int`; where the source can
  overflow 64-bit arithmetic the wrap-around is made explicit with `wrap64`.
* `strconv.ParseFloat` followed by `math.Round(f * factor)` is modelled
  exactly over the decimal syntax as an integer mantissa/exponent pair
  (`parseFloatME`); the binary float64 rounding step of the source is
  modelled by exact rational arithmetic on those integers.  `fmt.Sprintf`
  with `%.1f` is modelled by exact round-half-to-even to one decimal.
* External collaborators (the S3 client, `time.Now`, the terminal) appear
  as explicit inputs: request outcomes are values of small inductive types
  and wall-clock-dependent quantities are function parameters.
-/

abbrev Str := List Char

/-- Go `strings.Split(s, sep)` for a one-character separator: split at every
occurrence, keeping empty fields; the empty string yields `[[]]`. -/
def splitOnChar (sep : Char) : Str → List Str
  | [] => [[]]
  | c :: rest =>
    match splitOnChar sep rest with
    | [] => [[]]
    | f :: fs => if c == sep then [] :: f :: fs else (c :: f) :: fs

/-- Go `strings.SplitN(s, sep, 2)` for a one-character separator. -/
def splitFirst (sep : Char) : Str → Str × Option Str
  | [] => ([], none)
  | c :: rest =>
    if c == sep then ([], some rest)
    else
      let r := splitFirst sep rest
      (c :: r.1, r.2)

/-- Go `strings.HasPrefix(s, pre)` (prefix as the first argument). -/
def hasPre : Str → Str → Bool
  | [], _ => true
  | _ :: _, [] => false
  | p :: ps, c :: cs => p == c && hasPre ps cs

/-- White-space test of Go `unicode.IsSpace` restricted to the ASCII space
characters (space, tab, newline, carriage return, vertical tab, form feed);
the schedule files in scope contain no exotic Unicode spaces. -/
def isSpaceGo (c : Char) : Bool :=
  c == ' ' || c == '\t' || c == '\n' || c == '\r' || c == Char.ofNat 11 || c == Char.ofNat 12

/-- Go `strings.TrimSpace`. -/
def trimSpace (s : Str) : Str :=
  ((s.dropWhile isSpaceGo).reverse.dropWhile isSpaceGo).reverse

/-- Digit run to an integer (all characters are checked to be digits by the
callers before this is applied). -/
def digitsToInt (s : Str) : Int :=
  s.foldl (fun a c => 10 * a + (Int.ofNat (c.toNat - 48))) 0

/-- Go `strconv.Atoi`: an optional sign followed by one or more decimal
digits (the int64 overflow failure of the source cannot trigger on the
two-character slices it is applied to here and is not modelled). -/
def atoi (s : Str) : Option Int :=
  match s with
  | '+' :: rest => if rest ≠ [] && rest.all Char.isDigit then some (digitsToInt rest) else none
  | '-' :: rest => if rest ≠ [] && rest.all Char.isDigit then some (-(digitsToInt rest)) else none
  | _ => if s ≠ [] && s.all Char.isDigit then some (digitsToInt s) else none

/-- Characters that may appear in the decimal syntax accepted by
`strconv.ParseFloat` (the hex, `Inf`, `NaN` and underscore forms of the
source are rejected by this model; no caller in scope produces them). -/
def floatCharOK (c : Char) : Bool :=
  c.isDigit || c == '.' || c == '+' || c == '-' || c == 'e' || c == 'E'

/-- Structural part of the `ParseFloat` model: returns the mantissa/exponent
pair `(m, e)` denoting `m * 10 ^ e`. -/
def parseFloatCore (s : Str) : Option (Int × Int) :=
  let sgn : Int := match s with
    | '-' :: _ => -1
    | _ => 1
  let s1 : Str := match s with
    | '-' :: r => r
    | '+' :: r => r
    | _ => s
  let ip := s1.takeWhile Char.isDigit
  let s2 := s1.dropWhile Char.isDigit
  let fp : Str := match s2 with
    | '.' :: r => r.takeWhile Char.isDigit
    | _ => []
  let s3 : Str := match s2 with
    | '.' :: r => r.dropWhile Char.isDigit
    | _ => s2
  if ip.length + fp.length == 0 then none
  else
    let m := sgn * digitsToInt (ip ++ fp)
    match s3 with
    | [] => some (m, -(Int.ofNat fp.length))
    | e :: r =>
      if e == 'e' || e == 'E' then
        let esgn : Int := match r with
          | '-' :: _ => -1
          | _ => 1
        let r1 : Str := match r with
          | '-' :: rr => rr
          | '+' :: rr => rr
          | _ => r
        let ed := r1.takeWhile Char.isDigit
        let r2 := r1.dropWhile Char.isDigit
        if ed.length == 0 || !r2.isEmpty then none
        else some (m, esgn * digitsToInt ed - Int.ofNat fp.length)
      else none

/-- Model of `strconv.ParseFloat` over the decimal syntax. -/
def parseFloatME (s : Str) : Option (Int × Int) :=
  if s.all floatCharOK then parseFloatCore s else none

/-- Round `n / d` (with `d > 0`) half away from zero, the semantics of Go
`math.Round`. -/
def roundAwayDiv (n d : Int) : Int :=
  if 0 ≤ n then (2 * n + d) / (2 * d) else -((2 * (-n) + d) / (2 * d))

/-- The value `int64(math.Round(f * factor))` for `f = m * 10 ^ e`, computed
exactly. -/
def scaledRound (m e factor : Int) : Int :=
  if 0 ≤ e then m * factor * 10 ^ e.toNat
  else roundAwayDiv (m * factor) (10 ^ (-e).toNat)

/-- Go `parseRate` (utils): `"unlimited"` is 0; an optional `k/K/m/M/g/G`
suffix scales by a decimal factor; the rest is parsed by `ParseFloat` and
rounded.  The source indexes `s[len(s)-1]` and would panic on an empty
string; the empty string maps to `none` here and no claim exercises it. -/
def parseRate (s : Str) : Option Int :=
  if s == ("unlimited".toList) then some 0
  else
    match s.getLast? with
    | none => none
    | some suffix =>
      let factor : Int :=
        if suffix == 'k' || suffix == 'K' then 1000
        else if suffix == 'm' || suffix == 'M' then 1000000
        else if suffix == 'g' || suffix == 'G' then 1000000000
        else 1
      let s1 := if factor ≠ 1 then s.dropLast else s
      (parseFloatME s1).map (fun me => scaledRound me.1 me.2 factor)

def kiB : Int := 1024
def MiB : Int := 1024 * kiB
def GiB : Int := 1024 * MiB
def TiB : Int := 1024 * GiB

/-- Go `parseFilesize` (utils): like `parseRate` but with binary factors and
no `"unlimited"` case. -/
def parseFilesize (s : Str) : Option Int :=
  match s.getLast? with
  | none => none
  | some suffix =>
    let factor : Int :=
      if suffix == 'k' || suffix == 'K' then kiB
      else if suffix == 'm' || suffix == 'M' then MiB
      else if suffix == 'g' || suffix == 'G' then GiB
      else 1
    let s1 := if factor ≠ 1 then s.dropLast else s
    (parseFloatME s1).map (fun me => scaledRound me.1 me.2 factor)

/-- Round `n / d` (with `d > 0`) half to even, the rounding used by `%.1f`
formatting at the final decimal place. -/
def halfEvenDiv (n d : Int) : Int :=
  let q := n.fdiv d
  let r := n - q * d
  if 2 * r < d then q else if d < 2 * r then q + 1 else if q % 2 == 0 then q else q + 1

/-- Decimal digits of a natural number. -/
def natChars (n : Nat) : Str := Nat.toDigits 10 n

/-- Go `%d` of an integer. -/
def intChars (i : Int) : Str :=
  if i < 0 then '-' :: natChars (-i).toNat else natChars i.toNat

/-- Go `%.1f` of the quotient `n / d` (`d > 0`), i.e. the float64 division
`float64(n)/float64(d)` printed with one decimal, modelled exactly. -/
def formatFixed1 (n d : Int) : Str :=
  let t := halfEvenDiv (10 * n) d
  let w := t.fdiv 10
  let fr := t - 10 * w
  intChars w ++ '.' :: intChars fr

/-- Go `formatSize` (utils, current version): decimal units, `"%d bytes"`
below 1 kB. -/
def formatSize (size : Int) : Str :=
  if size < 1000 then intChars size ++ (" bytes".toList)
  else if size < 1000000 then formatFixed1 size 1000 ++ (" kB".toList)
  else if size < 1000000000 then formatFixed1 size 1000000 ++ (" MB".toList)
  else if size < 1000000000000 then formatFixed1 size 1000000000 ++ (" GB".toList)
  else formatFixed1 size 1000000000000 ++ (" TB".toList)

/-- Go `formatFilesize` (utils): binary units with the exact byte count in
parentheses. -/
def formatFilesize (size : Int) : Str :=
  if size < kiB then intChars size ++ (" bytes".toList)
  else if size < MiB then
    formatFixed1 size kiB ++ (" kiB (".toList) ++ intChars size ++ (" bytes)".toList)
  else if size < GiB then
    formatFixed1 size MiB ++ (" MiB (".toList) ++ intChars size ++ (" bytes)".toList)
  else if size < TiB then
    formatFixed1 size GiB ++ (" GiB (".toList) ++ intChars size ++ (" bytes)".toList)
  else
    formatFixed1 size TiB ++ (" TiB (".toList) ++ intChars size ++ (" bytes)".toList)

/-- Possible outcomes of one `lookupChecksum` scan. -/
inductive SumsResult where
  | found (sum : Str)
  | notFound
  | formatError
  | panicOutOfRange
deriving DecidableEq

/-- Go `lookupChecksum` (utils): scan the SHA256SUMS lines for the entry of
`entryPath`.  The source slices `line[0:64]`, `line[64:66]` and `line[66:]`
without a length guard, so any line shorter than 66 characters triggers a
runtime slice-bounds panic, modelled by `SumsResult.panicOutOfRange`.
`filepath.Abs` is modelled as the identity (paths in scope are already
absolute), which no claim here depends on. -/
def lookupChecksum (lines : List Str) (entryPath : Str) : SumsResult :=
  match lines with
  | [] => .notFound
  | line :: rest =>
    if line.length < 66 then .panicOutOfRange
    else
      let sum := line.take 64
      let mid := (line.drop 64).take 2
      if mid ≠ ("  ".toList) ∧ mid ≠ (" *".toList) then .formatError
      else if line.drop 66 == entryPath then .found sum
      else lookupChecksum rest entryPath

deriving instance DecidableEq for Except

/-- Go `ScheduleBlock` (schedule.go); `weekday` is `time.Weekday`
(Sunday = 0 … Saturday = 6) as an integer. -/
structure ScheduleBlock where
  weekday : Int
  startHour : Int
  startMinute : Int
  endHour : Int
  endMinute : Int
  rate : Int
deriving DecidableEq

/-- Go `Schedule` (schedule.go). -/
structure Schedule where
  defaultRate : Int
  blocks : List ScheduleBlock
deriving DecidableEq

/-- Go `parseWeekday` (schedule.go). -/
def parseWeekday (s : Str) : Option Int :=
  if s == ("mon".toList) || s == ("monday".toList) then some 1
  else if s == ("tue".toList) || s == ("tuesday".toList) then some 2
  else if s == ("wed".toList) || s == ("wednesday".toList) then some 3
  else if s == ("thu".toList) || s == ("thursday".toList) then some 4
  else if s == ("fri".toList) || s == ("friday".toList) then some 5
  else if s == ("sat".toList) || s == ("saturday".toList) then some 6
  else if s == ("sun".toList) || s == ("sunday".toList) then some 0
  else none

/-- Result of handling one schedule line. -/
inductive SchedDirective where
  | skip
  | setDefault (rate : Int)
  | addBlocks (bs : List ScheduleBlock)
deriving DecidableEq

/-- The weekday list produced by a `day1-day2` range: the Go loop
`for i := startWeekday + 1; i <= endWeekday; i++ { append(i % 7) }` where
`endWeekday` was first raised by 7 if below `startWeekday`. -/
def weekdayRange (startW endW : Int) : List Int :=
  let endW2 := if endW < startW then endW + 7 else endW
  startW :: (List.range (endW2 - startW).toNat).map (fun k => (startW + 1 + Int.ofNat k) % 7)

/-- The weekday part of a block line: `parseWeekday`, the optional range
end, and the range expansion of schedule.go lines 94-111. -/
def readScheduleWeekdays (w0 : Str) (w1? : Option Str) : Except String (List Int) :=
  match parseWeekday w0 with
  | none => .error ("invalid week day")
  | some startW =>
    match w1? with
    | none => .ok [startW]
    | some w1 =>
      match parseWeekday w1 with
      | none => .error ("invalid week day")
      | some endW => .ok (weekdayRange startW endW)

/-- The tail of the block-line handling: the time-range parse and checks of
schedule.go lines 113-141, the rate parse, and the per-weekday block
expansion. -/
def readScheduleTimes (weekdays : List Int) (timeSpec : Str) (rateStr : Str) :
    Except String SchedDirective :=
  match splitOnChar '-' timeSpec with
  | [t0, t1] =>
    if t0.length ≠ 4 || t1.length ≠ 4 then
      .error ("invalid format (bad time range). missing leading zero?")
    else
      match atoi (t0.take 2), atoi (t0.drop 2), atoi (t1.take 2), atoi (t1.drop 2) with
      | some sh, some sm, some eh, some em =>
        if sh > 23 || sm > 59 || eh > 23 || em > 59 || eh < sh ||
            (sh == eh && em < sm) then
          .error ("invalid format (bad time spec)")
        else
          match parseRate (trimSpace rateStr) with
          | none => .error ("invalid rate")
          | some rate =>
            .ok (.addBlocks (weekdays.map (fun w => ⟨w, sh, sm, eh, em, rate⟩)))
      | _, _, _, _ => .error ("invalid time number")
  | _ => .error ("invalid format (bad time range)")

/-- One line of `readSchedule` (schedule.go): comments and blank lines are
skipped, a `default:` line sets the default rate, anything else must be a
`<day-or-range> <HHMM>-<HHMM>: <rate>` block line.  Error messages follow
the source but omit the line number. -/
def readScheduleLine (line : Str) : Except String SchedDirective :=
  match line with
  | [] => .ok .skip
  | c0 :: _ =>
    if c0 == '#' then .ok .skip
    else if hasPre ("default:".toList) line then
      match (splitFirst ':' line).2 with
      | none => .error ("invalid format (expected one colon)")
      | some after =>
        match parseRate (trimSpace after) with
        | none => .error ("invalid rate")
        | some r => .ok (.setDefault r)
    else
      match splitOnChar ':' line with
      | [p0, p1] =>
        match splitOnChar ' ' (trimSpace p0) with
        | [daySpec, timeSpec] =>
          match splitOnChar '-' daySpec with
          | [w0] =>
            match readScheduleWeekdays w0 none with
            | .error e => .error e
            | .ok ws => readScheduleTimes ws timeSpec p1
          | [w0, w1] =>
            match readScheduleWeekdays w0 (some w1) with
            | .error e => .error e
            | .ok ws => readScheduleTimes ws timeSpec p1
          | _ => .error ("invalid format (too many dash characters)")
        | _ => .error ("invalid format (missing weekday or time spec)")
      | _ => .error ("invalid format (expected one colon)")

/-- The scanner loop of `readSchedule`: fold the lines, tracking the default
rate and the accumulated blocks. -/
def readScheduleLines : List Str → Int → List ScheduleBlock → Except String (Int × List ScheduleBlock)
  | [], d, bs => .ok (d, bs)
  | line :: rest, d, bs =>
    match readScheduleLine line with
    | .error e => .error e
    | .ok .skip => readScheduleLines rest d bs
    | .ok (.setDefault r) => readScheduleLines rest r bs
    | .ok (.addBlocks nb) => readScheduleLines rest d (bs ++ nb)

/-- The comparison closure passed to `sort.Slice` in `readSchedule`. -/
def blockLess (a b : ScheduleBlock) : Bool :=
  a.weekday < b.weekday ||
  (a.weekday == b.weekday && a.startHour < b.startHour) ||
  (a.weekday == b.weekday && a.startHour == b.startHour && a.startMinute < b.startMinute)

/-- The non-strict order induced by the `sort.Slice` comparator: `a` may
come before `b` exactly when `blockLess b a` is false. -/
def blockLEb (a b : ScheduleBlock) : Prop := blockLess b a = false

instance : DecidableRel blockLEb :=
  fun a b => inferInstanceAs (Decidable (blockLess b a = false))

/-- Lexicographic order on `(weekday, startHour, startMinute)`, the order the
specification sorts blocks by. -/
def blockLE (a b : ScheduleBlock) : Prop :=
  a.weekday < b.weekday ∨
    (a.weekday = b.weekday ∧
      (a.startHour < b.startHour ∨
        (a.startHour = b.startHour ∧ a.startMinute ≤ b.startMinute)))

theorem blockLEb_iff (a b : ScheduleBlock) : blockLEb a b ↔ blockLE a b := by
  simp only [blockLEb, blockLE, blockLess, Bool.or_eq_false_iff, Bool.and_eq_false_iff,
    decide_eq_false_iff_not, not_lt, beq_eq_false_iff_ne, ne_eq, Bool.and_eq_true,
    beq_iff_eq, decide_eq_true_eq]
  constructor
  · intro h
    omega
  · intro h
    omega

instance : IsTotal ScheduleBlock blockLEb :=
  ⟨by
    intro a b
    rw [blockLEb_iff, blockLEb_iff]
    unfold blockLE
    omega⟩

instance : IsTrans ScheduleBlock blockLEb :=
  ⟨by
    intro a b c hab hbc
    rw [blockLEb_iff] at *
    unfold blockLE at *
    omega⟩

/-- Model of the `sort.Slice(blocks, less)` call: a permutation of `blocks`
sorted by the comparator (the source's sort is unstable with unspecified tie
order; this model fixes the stable choice, which no property in scope
distinguishes). -/
def sortBlocks (bs : List ScheduleBlock) : List ScheduleBlock :=
  List.insertionSort blockLEb bs

/-- The adjacent-pair overlap scan of `readSchedule` (schedule.go
lines 168–179); `true` means no error. -/
def overlapCheck : List ScheduleBlock → Bool
  | a :: b :: rest =>
    (a.weekday != b.weekday ||
      !(a.endHour > b.startHour || (a.endHour == b.startHour && a.endMinute > b.startMinute))) &&
    overlapCheck (b :: rest)
  | _ => true

/-- Go `readSchedule` (schedule.go), over the scanner's line list. -/
def readSchedule (lines : List Str) : Except String Schedule :=
  match readScheduleLines lines 0 [] with
  | .error e => .error e
  | .ok (d, bs) =>
    if (sortBlocks bs).length == 0 then .error ("schedule is empty")
    else if overlapCheck (sortBlocks bs) then .ok ⟨d, sortBlocks bs⟩
    else .error ("time ranges are not allowed to overlap")

/-- Go `Schedule.next` (schedule.go): scan all blocks keeping the one whose
next occurrence starts soonest.  The wall-clock environment is explicit:
`startF b` is the start instant that `b.next()` would compute under the
current `time.Now()`, and `now` is the current instant, both in arbitrary
integral time units.  The selected block is returned as an `Option`
(mirroring the `minBlock *ScheduleBlock` pointer that the source finally
dereferences).  `nextBlockStep` is one iteration of the scan: keep the
accumulator or replace it with the current block per the source's
`minBlock == nil || timeUntil < 0 || timeUntil < minTimeUntil` test. -/
def nextBlockStep (startF : ScheduleBlock → Int) (now : Int)
    (acc : Option (ScheduleBlock × Int)) (block : ScheduleBlock) :
    Option (ScheduleBlock × Int) :=
  let timeUntil := startF block - now
  match acc with
  | none => some (block, timeUntil)
  | some (mb, mt) =>
    if timeUntil < 0 || timeUntil < mt then some (block, timeUntil) else some (mb, mt)

/-- The full `Schedule.next` scan over `s.blocks`. -/
def nextBlock (startF : ScheduleBlock → Int) (now : Int) (s : Schedule) : Option ScheduleBlock :=
  (s.blocks.foldl (nextBlockStep startF now) none).map Prod.fst

/-- Outcome of the `HeadObject` probe as seen by `run` (main.go): a success
response (the object exists), an HTTP error with a status code, or a
transport-level error with no HTTP response. -/
inductive HeadObjectOutcome where
  | success
  | httpError (status : Int)
  | transportError
deriving DecidableEq

/-- Whether the `*HeadObjectOutput` pointer returned to `run` is non-nil. -/
def headObjNonNil : HeadObjectOutcome → Bool
  | .success => true
  | _ => false

/-- Whether the error value returned to `run` is nil. -/
def headErrNil : HeadObjectOutcome → Bool
  | .success => true
  | _ => false

/-- Go `isSmithyErrorCode(err, code)` (utils) applied to the head outcome. -/
def isSmithyErrorCode : HeadObjectOutcome → Int → Bool
  | .httpError c, code => c == code
  | _, _ => false

/-- The existence-check block of `run`: skipped entirely under `--force`,
otherwise it aborts with exit code 1 unless `HeadObject` failed with an
HTTP 404. -/
def existenceCheck (force : Bool) (o : HeadObjectOutcome) : Except Int Unit :=
  if force then .ok ()
  else if headObjNonNil o || headErrNil o || !(isSmithyErrorCode o 404) then .error 1
  else .ok ()

/-- Whether `run` goes on to the `CreateMultipartUpload`/resume section,
i.e. whether any multipart upload can be created after the probe. -/
def uploadCreatedAfterHead (force : Bool) (o : HeadObjectOutcome) : Bool :=
  match existenceCheck force o with
  | .ok _ => true
  | .error _ => false

/-- Signed 64-bit wrap-around: the value of a Go `int64` expression whose
mathematical value is `x`. -/
def wrap64 (x : Int) : Int :=
  (x + 9223372036854775808) % 18446744073709551616 - 9223372036854775808

/-- The automatic part-size loop of `run` (main.go lines 276-282):
`for 10000*partSize < fileSize { partSize *= 2 }` in Go int64 arithmetic.
The fuel bounds the number of iterations; an int64 can double from 8 MiB at
most 40 times before cycling on 0, so any fuel above 41 yields the same
result and `none` means the Go loop never exits. -/
def partSizeLoop : Nat → Int → Int → Option Int
  | 0, _, _ => none
  | fuel + 1, partSize, fileSize =>
    if wrap64 (10000 * partSize) < fileSize then
      partSizeLoop fuel (wrap64 (2 * partSize)) fileSize
    else some partSize

/-- Automatic part-size selection (no `-part-size` override): start at
8 MiB, run the doubling loop, then cap at 5 GiB. -/
def autoPartSize (fileSize : Int) : Option Int :=
  (partSizeLoop 100 (8 * MiB) fileSize).map (fun p => if 5 * GiB < p then 5 * GiB else p)

/-- The part-size range check of `run` (main.go line 285): outside
`[5 MiB, 5 GiB]` the program only prints a warning and continues. -/
def partSizeWarn (partSize : Int) : Bool :=
  partSize < 5 * MiB || 5 * GiB < partSize

/-- The keyboard rate-adjustment branch of the main event loop (main.go
lines 793-818): for the keys `a s d f z x c v`, a rate at or below 1 kB/s is
first reset to 0 unless the key is `a`, the key's delta is applied, and the
result is floored at 1 kB/s. -/
def applyRateKey (rate : Int) (r : Char) : Int :=
  let rate1 := if rate ≤ 1000 && r != 'a' then 0 else rate
  let rate2 :=
    if r == 'a' then rate1 + 1000
    else if r == 's' then rate1 + 10000
    else if r == 'd' then rate1 + 100000
    else if r == 'f' then rate1 + 250000
    else if r == 'z' then rate1 - 1000
    else if r == 'x' then rate1 - 10000
    else if r == 'c' then rate1 - 100000
    else if r == 'v' then rate1 - 250000
    else rate1
  if rate2 < 1000 then 1000 else rate2

/-- The `reader.SetLimit(rate)` call that closes the branch: the limit the
reader is handed after the key is applied. -/
def rateKeySetLimit (rate : Int) (r : Char) : Option Int :=
  some (applyRateKey rate r)

/-- One completed part as tracked by the coordinator: its 1-based number and
the size of the file region it covered (the server ETag is opaque and not
modelled). -/
structure PartRec where
  partNumber : Int
  size : Int
deriving DecidableEq

/-- The coordinator's mutable upload state: the `parts` slice, the byte
`offset`, and the next `partNumber`. -/
structure UploadState where
  parts : List PartRec
  offset : Int
  partNumber : Int
deriving DecidableEq

/-- State reconstruction from `ListParts` (main.go lines 528-557):
`partNumber` advances by the number of listed parts, `offset` by their
sizes, and each listed part is appended to `parts`. -/
def reconstructState (listed : List PartRec) : UploadState :=
  ⟨listed, (listed.map PartRec.size).sum, 1 + listed.length⟩

/-- The contiguity target `[1, …, n]`. -/
def contiguousNumbers (n : Nat) : List Int :=
  (List.range n).map (fun (i : Nat) => (i : Int) + 1)

/-- The gap check of main.go lines 559-570: sort the part numbers and
require the i-th to be `i+1`. -/
def gapCheckOK (listed : List PartRec) : Bool :=
  List.insertionSort (fun a b : Int => a ≤ b) (listed.map PartRec.partNumber) ==
    contiguousNumbers listed.length

/-- Resume validation (main.go lines 559-575): reject gaps, then reject an
offset beyond the local file size; exit code 1 on both.  The fresh-upload
branch of the source is the `listed = []` case, for which both checks pass
trivially and the state is `⟨[], 0, 1⟩`. -/
def resumeValidate (fileSize : Int) (listed : List PartRec) : Except Int UploadState :=
  if !(gapCheckOK listed) then .error 1
  else if fileSize < (reconstructState listed).offset then .error 1
  else .ok (reconstructState listed)

/-- The region and part number the next `UploadPart` call would use from
state `st` (main.go lines 724-745): `size = min(partSize, fileSize-offset)`
over bytes `[offset, offset+size)` with part number `st.partNumber`. -/
def dispatchFor (partSize fileSize : Int) (st : UploadState) : Int × Int × Int :=
  (st.partNumber, st.offset, min partSize (fileSize - st.offset))

/-- Result of one `UploadPart` attempt. -/
inductive PartOutcome where
  | success
  | failure
deriving DecidableEq

/-- What one iteration of the part loop does after the attempt finishes. -/
inductive IterResult where
  | exit (code : Int) (st : UploadState)
  | step (st : UploadState) (sleepSeconds : Nat)
deriving DecidableEq

/-- One iteration of the part loop after the upload goroutine finished
(main.go lines 889-916): on success, exit 1 if interrupted, else append the
part record and advance `offset` and `partNumber`; on error, exit 1 if
interrupted, else sleep 10 seconds and leave the state untouched. -/
def uploadIter (partSize fileSize : Int) (st : UploadState) (o : PartOutcome)
    (interrupted : Bool) : IterResult :=
  match o with
  | .success =>
    if interrupted then .exit 1 st
    else
      let size := min partSize (fileSize - st.offset)
      .step ⟨st.parts ++ [⟨st.partNumber, size⟩], st.offset + size, st.partNumber + 1⟩ 0
  | .failure =>
    if interrupted then .exit 1 st else .step st 10

/-- Result of running the part loop against a finite trace of attempt
outcomes. -/
inductive RunResult where
  | done (st : UploadState)
  | exited (code : Int) (st : UploadState)
  | pending (st : UploadState)
deriving DecidableEq

/-- The part loop `for offset < fileSize` (main.go lines 707-917) driven by
a trace of `(outcome, interrupted)` observations, one per `UploadPart`
attempt.  `pending` means the trace ran out mid-loop and reports the state
the next attempt would start from. -/
def runLoop (partSize fileSize : Int) : List (PartOutcome × Bool) → UploadState → RunResult
  | trace, st =>
    if st.offset < fileSize then
      match trace with
      | [] => .pending st
      | (o, intr) :: rest =>
        match uploadIter partSize fileSize st o intr with
        | .exit c st1 => .exited c st1
        | .step st1 _ => runLoop partSize fileSize rest st1
    else .done st

/-- The post-loop sanity check and the parts handed to
`CompleteMultipartUpload` (main.go lines 920-935). -/
def finishRun (fileSize : Int) : RunResult → Except Int (List PartRec)
  | .done st => if st.offset ≠ fileSize then .error 1 else .ok st.parts
  | .exited c _ => .error c
  | .pending _ => .error 1

/-- The claimed loop invariant: `partNumber` is one past the number of
recorded parts and `offset` is their total size, within the file. -/
def stateInv (fileSize : Int) (st : UploadState) : Prop :=
  st.partNumber = st.parts.length + 1 ∧
    st.offset = (st.parts.map PartRec.size).sum ∧
    st.offset ≤ fileSize

/-- Contiguous 1-based numbering of a parts list. -/
def partsNumbered (ps : List PartRec) : Prop :=
  ps.map PartRec.partNumber = contiguousNumbers ps.length

/-- C2.  Existence check: without force-overwrite, the run proceeds past the
`HeadObject` probe exactly when the probe returned an HTTP 404 error; every
other outcome (success included) makes `run` return exit code 1, and then
the `CreateMultipartUpload`/resume section is never reached. -/
theorem claim_C2 (o : HeadObjectOutcome) :
    (existenceCheck false o = .ok () ↔ o = .httpError 404) ∧
    (o ≠ .httpError 404 →
      existenceCheck false o = .error 1 ∧ uploadCreatedAfterHead false o = false) := by
  cases o with
  | success =>
    exact ⟨⟨fun h => absurd h (by decide), fun h => by cases h⟩, fun _ => by decide⟩
  | transportError =>
    exact ⟨⟨fun h => absurd h (by decide), fun h => by cases h⟩, fun _ => by decide⟩
  | httpError c =>
    by_cases hc : c = 404
    · subst hc
      exact ⟨⟨fun _ => rfl, fun _ => by decide⟩, fun hne => absurd rfl hne⟩
    · constructor
      · constructor
        · intro h
          simp [existenceCheck, headObjNonNil, headErrNil, isSmithyErrorCode, hc] at h
        · intro h
          cases h
          exact absurd rfl hc
      · intro _
        constructor
        · simp [existenceCheck, headObjNonNil, headErrNil, isSmithyErrorCode, hc]
        · simp [uploadCreatedAfterHead, existenceCheck, headObjNonNil, headErrNil,
            isSmithyErrorCode, hc]

/-- Witness for C2 at the concrete outcome `success` (S6: `HeadObject`
returns 200 without force). -/
theorem claim_C2_witness :
    (HeadObjectOutcome.success ≠ .httpError 404) ∧
    existenceCheck false .success = .error 1 ∧
    uploadCreatedAfterHead false .success = false :=
  ⟨by decide, (claim_C2 .success).2 (by decide)⟩

/-- Counterexample for C5: at rate 1000 B/s the key `s` yields 10000 B/s,
not the claimed 1000 + 10000 = 11000 B/s, because the source first resets a
rate at or below 1 kB/s to 0 for every adjustment key other than `a`. -/
theorem claim_C5_counterexample :
    applyRateKey 1000 's' = 10000 ∧ (10000 : Int) ≠ 1000 + 10000 := by decide

/-- C5 (amended).  The keys behave as claimed with one carve-out: for every
key other than `a`, a current rate at or below 1e3 is first reset to 0
before the delta is applied; the result of every key is floored at 1e3
(which for the four decrease keys coincides with the claim's formula), and
the new value is handed to the reader's `SetLimit`. -/
theorem claim_C5 (rate : Int) :
    applyRateKey rate 'a' = max 1000 (rate + 1000) ∧
    applyRateKey rate 's' = max 1000 ((if rate ≤ 1000 then 0 else rate) + 10000) ∧
    applyRateKey rate 'd' = max 1000 ((if rate ≤ 1000 then 0 else rate) + 100000) ∧
    applyRateKey rate 'f' = max 1000 ((if rate ≤ 1000 then 0 else rate) + 250000) ∧
    applyRateKey rate 'z' = max 1000 (rate - 1000) ∧
    applyRateKey rate 'x' = max 1000 (rate - 10000) ∧
    applyRateKey rate 'c' = max 1000 (rate - 100000) ∧
    applyRateKey rate 'v' = max 1000 (rate - 250000) ∧
    (∀ r : Char, rateKeySetLimit rate r = some (applyRateKey rate r)) := by
  refine ⟨?_, ?_, ?_, ?_, ?_, ?_, ?_, ?_, fun _ => rfl⟩ <;>
    · simp [applyRateKey]
      omega

/-- C8 (code bug).  The SHA256SUMS scan is not total: a line shorter than 66
characters (here the empty line) hits the unguarded slice `line[0:64]` and
panics with a slice-bounds error instead of returning the format parse
error; well-formed lines behave as specified (64-character sum, two-byte
separator `"  "` or `" *"`, anything else a parse error). -/
theorem claim_C8 :
    lookupChecksum [[]] ("/f".toList) = .panicOutOfRange ∧
    SumsResult.panicOutOfRange ≠ SumsResult.formatError ∧
    lookupChecksum [List.replicate 64 'a' ++ ("  /f".toList)] ("/f".toList) =
      .found (List.replicate 64 'a') ∧
    lookupChecksum [List.replicate 64 'a' ++ (" x/f".toList)] ("/f".toList) = .formatError ∧
    lookupChecksum [List.replicate 64 'a' ++ (" */f".toList)] ("/f".toList) =
      .found (List.replicate 64 'a') := by
  decide

/-- C3.  A failed `UploadPart` attempt with no interrupt pending leaves
`parts`, `offset` and `partNumber` untouched, sleeps 10 seconds, and the
next attempt dispatches the same part number over the same region
`(offset, min(partSize, fileSize - offset))`; any number of consecutive
failures leaves the loop in exactly the same state (no retry cap). -/
theorem claim_C3 (partSize fileSize : Int) (st : UploadState) (h : st.offset < fileSize) :
    uploadIter partSize fileSize st .failure false = .step st 10 ∧
    (∀ n : Nat, runLoop partSize fileSize (List.replicate n (.failure, false)) st = .pending st) ∧
    dispatchFor partSize fileSize st =
      (st.partNumber, st.offset, min partSize (fileSize - st.offset)) := by
  refine ⟨rfl, ?_, rfl⟩
  intro n
  induction n with
  | zero => simp [runLoop, h]
  | succ k ih => simpa [runLoop, h, uploadIter, List.replicate_succ] using ih

/-- Witness for C3: three consecutive failures at a concrete mid-upload
state leave the loop pending at that same state. -/
theorem claim_C3_witness :
    ((⟨[⟨1, 8⟩], 8, 2⟩ : UploadState).offset < 10) ∧
    runLoop 8 10 (List.replicate 3 (.failure, false)) ⟨[⟨1, 8⟩], 8, 2⟩ =
      .pending ⟨[⟨1, 8⟩], 8, 2⟩ :=
  ⟨by decide, (claim_C3 8 10 ⟨[⟨1, 8⟩], 8, 2⟩ (by decide)).2.1 3⟩

theorem parseFloatME_of_space {s : Str} (h : ' ' ∈ s) : parseFloatME s = none := by
  have h2 : s.all floatCharOK = false := by
    cases hall : s.all floatCharOK
    · rfl
    · rw [List.all_eq_true] at hall
      exact absurd (hall _ h) (by decide)
  simp [parseFloatME, h2]

theorem parseRate_space_none {s : Str} {c : Char} (hs : ' ' ∈ s) (hlast : s.getLast? = some c)
    (hc : c ≠ 'k' ∧ c ≠ 'K' ∧ c ≠ 'm' ∧ c ≠ 'M' ∧ c ≠ 'g' ∧ c ≠ 'G') :
    parseRate s = none := by
  have hne : s ≠ ['u', 'n', 'l', 'i', 'm', 'i', 't', 'e', 'd'] := by
    intro he
    rw [he] at hs
    exact absurd hs (by decide)
  simp [parseRate, hlast, hne, parseFloatME_of_space hs, hc.1, hc.2.1, hc.2.2.1,
    hc.2.2.2.1, hc.2.2.2.2.1, hc.2.2.2.2.2]

theorem parseFilesize_space_none {s : Str} {c : Char} (hs : ' ' ∈ s) (hlast : s.getLast? = some c)
    (hc : c ≠ 'k' ∧ c ≠ 'K' ∧ c ≠ 'm' ∧ c ≠ 'M' ∧ c ≠ 'g' ∧ c ≠ 'G') :
    parseFilesize s = none := by
  simp [parseFilesize, hlast, parseFloatME_of_space hs, hc.1, hc.2.1, hc.2.2.1,
    hc.2.2.2.1, hc.2.2.2.2.1, hc.2.2.2.2.2]

/-- Counterexample for C9: already at n = 0 the literal round trip produces
no value at all — `formatSize 0` is `"0 bytes"`, which `parseRate` rejects
(the space and the unit letters are outside `ParseFloat`'s syntax), and
likewise for the filesize pair — so no round-tripped value within 5 % of n
exists. -/
theorem claim_C9_counterexample :
    formatSize 0 = ("0 bytes".toList) ∧ parseRate ("0 bytes".toList) = none ∧
    formatFilesize 0 = ("0 bytes".toList) ∧ parseFilesize ("0 bytes".toList) = none := by
  decide

/-- C9 (amended).  The formatters are not inverses of the parsers at all:
for every n ≥ 0 the formatted size string contains a space and ends in a
unit letter outside the parsers' suffix syntax, so `parseRate ∘ formatSize`
and `parseFilesize ∘ formatFilesize` fail on every input. -/
theorem claim_C9 (n : Int) (h0 : 0 ≤ n) :
    parseRate (formatSize n) = none ∧ parseFilesize (formatFilesize n) = none := by
  constructor
  · unfold formatSize
    split_ifs <;>
      exact parseRate_space_none (by simp) (by rw [List.getLast?_append]; rfl) (by decide)
  · unfold formatFilesize
    split_ifs <;>
      exact parseFilesize_space_none (by simp) (by rw [List.getLast?_append]; rfl) (by decide)

/-- Witness for C9 at n = 2500000: the formatted strings `"2.5 MB"` and
`"2.4 MiB (2500000 bytes)"` both fail to parse. -/
theorem claim_C9_witness :
    (0 : Int) ≤ 2500000 ∧ parseRate (formatSize 2500000) = none ∧
    parseFilesize (formatFilesize 2500000) = none :=
  ⟨by decide, (claim_C9 2500000 (by decide)).1, (claim_C9 2500000 (by decide)).2⟩

theorem nextBlockFold_isSome (startF : ScheduleBlock → Int) (now : Int) :
    ∀ (l : List ScheduleBlock) (p : ScheduleBlock × Int),
      (l.foldl (nextBlockStep startF now) (some p)).isSome = true := by
  intro l
  induction l with
  | nil => intro p; rfl
  | cons b rest ih =>
    intro p
    obtain ⟨mb, mt⟩ := p
    simp only [List.foldl_cons, nextBlockStep]
    split
    · exact ih _
    · exact ih _

/-- C10.  `readSchedule` never returns a schedule with an empty block list
(such files are rejected with "schedule is empty"), and for every schedule
with a nonempty block list the `Schedule.next` scan selects a block on its
first iteration, so the final dereference of the selected-block pointer can
never be a nil-pointer dereference (modelled: `nextBlock` is `some` under
every wall-clock environment). -/
theorem claim_C10 :
    (∀ (lines : List Str) (s : Schedule), readSchedule lines = .ok s → s.blocks ≠ []) ∧
    (∀ (startF : ScheduleBlock → Int) (now : Int) (s : Schedule),
      s.blocks ≠ [] → (nextBlock startF now s).isSome = true) := by
  constructor
  · intro lines s h
    unfold readSchedule at h
    split at h
    · cases h
    · rename_i d bs heq
      split at h
      · cases h
      · split at h
        · rename_i hlen _
          cases h
          intro hnil
          exact hlen (by rw [show sortBlocks bs = [] from hnil]; rfl)
        · cases h
  · intro startF now s hne
    unfold nextBlock
    cases hb : s.blocks with
    | nil => exact absurd hb hne
    | cons b rest =>
      have h1 : (List.foldl (nextBlockStep startF now) none (b :: rest)).isSome = true := by
        simpa [List.foldl_cons, nextBlockStep] using
          nextBlockFold_isSome startF now rest (b, startF b - now)
      obtain ⟨q, hq⟩ := Option.isSome_iff_exists.mp h1
      rw [hq]
      rfl

/-- Witness for C10 on a concrete accepted schedule and environment. -/
theorem claim_C10_witness :
    readSchedule [("mon 0800-0900: 100k".toList)] = .ok ⟨0, [⟨1, 8, 0, 9, 0, 100000⟩]⟩ ∧
    (Schedule.mk 0 [⟨1, 8, 0, 9, 0, 100000⟩]).blocks ≠ [] ∧
    (nextBlock (fun _ => 5) 0 ⟨0, [⟨1, 8, 0, 9, 0, 100000⟩]⟩).isSome = true :=
  ⟨by decide, claim_C10.1 [("mon 0800-0900: 100k".toList)] _ (by decide),
    claim_C10.2 (fun _ => 5) 0 _ (by decide)⟩

theorem contiguousNumbers_succ (n : Nat) :
    contiguousNumbers (n + 1) = contiguousNumbers n ++ [Int.ofNat n + 1] := by
  simp [contiguousNumbers, List.range_succ]

theorem gapCheck_numbered {listed : List PartRec}
    (hsorted : List.Sorted (· ≤ ·) (listed.map PartRec.partNumber))
    (hgap : gapCheckOK listed = true) :
    partsNumbered listed := by
  unfold gapCheckOK at hgap
  rw [beq_iff_eq] at hgap
  have hperm : (listed.map PartRec.partNumber).Perm (contiguousNumbers listed.length) := by
    have h1 := List.perm_insertionSort (fun a b : Int => a ≤ b) (listed.map PartRec.partNumber)
    rw [hgap] at h1
    exact h1.symm
  have hsorted2 : List.Sorted (· ≤ ·) (contiguousNumbers listed.length) := by
    unfold contiguousNumbers
    refine List.Pairwise.map (fun i : Nat => (i : Int) + 1) ?_ (List.pairwise_lt_range _)
    intro a b hab
    push_cast
    omega
  exact List.eq_of_perm_of_sorted hperm hsorted hsorted2

theorem uploadIter_success_inv {partSize fileSize : Int} {st : UploadState}
    (hinv : stateInv fileSize st) (hnum : partsNumbered st.parts)
    (hofs : st.offset < fileSize) :
    stateInv fileSize
        ⟨st.parts ++ [⟨st.partNumber, min partSize (fileSize - st.offset)⟩],
          st.offset + min partSize (fileSize - st.offset), st.partNumber + 1⟩ ∧
      partsNumbered
        (st.parts ++ [⟨st.partNumber, min partSize (fileSize - st.offset)⟩]) := by
  obtain ⟨h1, h2, h3⟩ := hinv
  have hmin : min partSize (fileSize - st.offset) ≤ fileSize - st.offset :=
    min_le_right _ _
  refine ⟨⟨?_, ?_, ?_⟩, ?_⟩
  · simp only [List.length_append, List.length_singleton]
    push_cast
    omega
  · simp [h2]
  · simp only
    omega
  · unfold partsNumbered at *
    simp only [List.map_append, List.length_append, List.length_singleton, List.map_cons,
      List.map_nil]
    rw [contiguousNumbers_succ, hnum, h1]
    simp

theorem runLoop_preserves (partSize fileSize : Int) :
    ∀ (trace : List (PartOutcome × Bool)) (st : UploadState),
      stateInv fileSize st → partsNumbered st.parts →
      (∀ st1, runLoop partSize fileSize trace st = .pending st1 →
        stateInv fileSize st1 ∧ partsNumbered st1.parts) ∧
      (∀ st1, runLoop partSize fileSize trace st = .done st1 →
        stateInv fileSize st1 ∧ partsNumbered st1.parts ∧ st1.offset = fileSize) := by
  intro trace
  induction trace with
  | nil =>
    intro st hinv hnum
    constructor
    · intro st1 h
      unfold runLoop at h
      split at h
      · cases h
        exact ⟨hinv, hnum⟩
      · cases h
    · intro st1 h
      unfold runLoop at h
      split at h
      · cases h
      · rename_i hge
        cases h
        exact ⟨hinv, hnum, by have := hinv.2.2; omega⟩
  | cons p rest ih =>
    intro st hinv hnum
    obtain ⟨o, intr⟩ := p
    constructor <;> intro st1 h <;> unfold runLoop at h
    · by_cases hofs : st.offset < fileSize
      · rw [if_pos hofs] at h
        cases o <;> cases intr <;> simp [uploadIter] at h
        · exact (ih _ (uploadIter_success_inv hinv hnum hofs).1
            (uploadIter_success_inv hinv hnum hofs).2).1 st1 h
        · exact (ih st hinv hnum).1 st1 h
      · rw [if_neg hofs] at h
        cases h
    · by_cases hofs : st.offset < fileSize
      · rw [if_pos hofs] at h
        cases o <;> cases intr <;> simp [uploadIter] at h
        · exact (ih _ (uploadIter_success_inv hinv hnum hofs).1
            (uploadIter_success_inv hinv hnum hofs).2).2 st1 h
        · exact (ih st hinv hnum).2 st1 h
      · rw [if_neg hofs] at h
        cases h
        exact ⟨hinv, hnum, by have := hinv.2.2; omega⟩

theorem resumeValidate_ok {fileSize : Int} {listed : List PartRec} {st : UploadState}
    (h : resumeValidate fileSize listed = .ok st) :
    st = reconstructState listed ∧ gapCheckOK listed = true ∧ st.offset ≤ fileSize := by
  unfold resumeValidate at h
  split at h
  · cases h
  · split at h
    · cases h
    · rename_i hgap hofs
      cases h
      refine ⟨rfl, ?_, ?_⟩
      · simpa using hgap
      · exact not_lt.mp hofs

/-- C1.  Part numbering invariant: a state validated from `ListParts` (or
the fresh state, `listed = []`) satisfies `partNumber = len(parts) + 1` and
`offset = Σ parts.size ≤ fileSize` with contiguously numbered parts; the
invariant holds at every state the part loop reaches (every `pending`
prefix observation); and when the loop completes, the parts handed to
`CompleteMultipartUpload` are numbered `1..N` in order and their sizes sum
to `fileSize`.  The hypothesis that `ListParts` returns its parts in
ascending part-number order is the S3 pagination contract. -/
theorem claim_C1 (fileSize partSize : Int) (listed : List PartRec) (st0 : UploadState)
    (hsorted : List.Sorted (· ≤ ·) (listed.map PartRec.partNumber))
    (hval : resumeValidate fileSize listed = .ok st0) :
    (stateInv fileSize st0 ∧ partsNumbered st0.parts) ∧
    (∀ trace st1, runLoop partSize fileSize trace st0 = .pending st1 →
      stateInv fileSize st1 ∧ partsNumbered st1.parts) ∧
    (∀ trace st1, runLoop partSize fileSize trace st0 = .done st1 →
      st1.offset = fileSize ∧ (st1.parts.map PartRec.size).sum = fileSize ∧
      st1.partNumber = st1.parts.length + 1 ∧
      (∀ i : Nat, (hi : i < st1.parts.length) → st1.parts[i].partNumber = (i : Int) + 1) ∧
      finishRun fileSize (RunResult.done st1) = .ok st1.parts) := by
  obtain ⟨hst, hgap, hofs⟩ := resumeValidate_ok hval
  have hinv0 : stateInv fileSize st0 := by
    subst hst
    refine ⟨?_, rfl, hofs⟩
    simp only [reconstructState]
    omega
  have hnum0 : partsNumbered st0.parts := by
    subst hst
    exact gapCheck_numbered hsorted hgap
  refine ⟨⟨hinv0, hnum0⟩, ?_, ?_⟩
  · intro trace st1 h
    exact (runLoop_preserves partSize fileSize trace st0 hinv0 hnum0).1 st1 h
  · intro trace st1 h
    obtain ⟨hinv1, hnum1, heq⟩ := (runLoop_preserves partSize fileSize trace st0 hinv0 hnum0).2 st1 h
    refine ⟨heq, ?_, hinv1.1, ?_, ?_⟩
    · rw [← hinv1.2.1]
      exact heq
    · intro i hi
      have h1 := congrArg (fun l => l[i]?) hnum1
      simp only [contiguousNumbers, List.getElem?_map] at h1
      rw [List.getElem?_eq_getElem hi] at h1
      rw [List.getElem?_eq_getElem (by simpa using hi)] at h1
      simp only [List.getElem_range, Option.map_some'] at h1
      exact Option.some.inj h1
    · simp [finishRun, heq]

/-- Witness for C1: resuming from one 4-byte listed part of a 10-byte file
and completing with one successful 6-byte part upload. -/
theorem claim_C1_witness :
    List.Sorted (· ≤ ·) ([(⟨1, 4⟩ : PartRec)].map PartRec.partNumber) ∧
    resumeValidate 10 [⟨1, 4⟩] = .ok ⟨[⟨1, 4⟩], 4, 2⟩ ∧
    (stateInv 10 ⟨[⟨1, 4⟩], 4, 2⟩ ∧ partsNumbered [(⟨1, 4⟩ : PartRec)]) ∧
    runLoop 8 10 [(.success, false)] ⟨[⟨1, 4⟩], 4, 2⟩ = .done ⟨[⟨1, 4⟩, ⟨2, 6⟩], 10, 3⟩ ∧
    ((⟨[⟨1, 4⟩, ⟨2, 6⟩], 10, 3⟩ : UploadState).offset = 10 ∧
      (([(⟨1, 4⟩ : PartRec), ⟨2, 6⟩]).map PartRec.size).sum = 10 ∧
      (⟨[⟨1, 4⟩, ⟨2, 6⟩], 10, 3⟩ : UploadState).partNumber =
        ([(⟨1, 4⟩ : PartRec), ⟨2, 6⟩]).length + 1 ∧
      (∀ i : Nat, (hi : i < ([(⟨1, 4⟩ : PartRec), ⟨2, 6⟩]).length) →
        ([(⟨1, 4⟩ : PartRec), ⟨2, 6⟩])[i].partNumber = (i : Int) + 1) ∧
      finishRun 10 (RunResult.done ⟨[⟨1, 4⟩, ⟨2, 6⟩], 10, 3⟩) =
        .ok [⟨1, 4⟩, ⟨2, 6⟩]) := by
  have hs : List.Sorted (· ≤ ·) ([(⟨1, 4⟩ : PartRec)].map PartRec.partNumber) := by simp
  have hv : resumeValidate 10 [(⟨1, 4⟩ : PartRec)] = .ok ⟨[⟨1, 4⟩], 4, 2⟩ := by decide
  have happ := claim_C1 10 8 [⟨1, 4⟩] ⟨[⟨1, 4⟩], 4, 2⟩ hs hv
  exact ⟨hs, hv, happ.1, by decide, happ.2.2 [(.success, false)] _ (by decide)⟩

/-- Lexicographic comparison of two wall-clock times of day. -/
def timeLE (h1 m1 h2 m2 : Int) : Prop := h1 < h2 ∨ (h1 = h2 ∧ m1 ≤ m2)

/-- A block's start time is no later than its end time. -/
def blockStartLEEnd (b : ScheduleBlock) : Prop :=
  timeLE b.startHour b.startMinute b.endHour b.endMinute

/-- The property the adjacent-pair overlap scan establishes for one pair. -/
def adjOK (a b : ScheduleBlock) : Prop :=
  a.weekday = b.weekday → timeLE a.endHour a.endMinute b.startHour b.startMinute

/-- The half-open ranges of two same-day blocks do not overlap. -/
def sameDayDisjoint (a b : ScheduleBlock) : Prop :=
  timeLE a.endHour a.endMinute b.startHour b.startMinute ∨
    timeLE b.endHour b.endMinute a.startHour a.startMinute

theorem timeLE_trans {h1 m1 h2 m2 h3 m3 : Int} (a : timeLE h1 m1 h2 m2)
    (b : timeLE h2 m2 h3 m3) : timeLE h1 m1 h3 m3 := by
  unfold timeLE at *
  omega

theorem blockLE_weekday {a b : ScheduleBlock} (h : blockLE a b) : a.weekday ≤ b.weekday := by
  unfold blockLE at h
  omega

theorem readScheduleTimes_blocks {ws : List Int} {ts rs : Str} {nb : List ScheduleBlock}
    (h : readScheduleTimes ws ts rs = .ok (.addBlocks nb)) :
    ∀ b ∈ nb, blockStartLEEnd b := by
  unfold readScheduleTimes at h
  split at h
  · split at h
    · cases h
    · split at h
      · rename_i sh sm eh em
        split at h
        · cases h
        · rename_i hguard
          split at h
          · cases h
          · cases h
            intro b hb
            rw [List.mem_map] at hb
            obtain ⟨w, _, rfl⟩ := hb
            unfold blockStartLEEnd timeLE
            simp only [Bool.or_eq_true, decide_eq_true_eq, Bool.and_eq_true, beq_iff_eq,
              not_or] at hguard
            simp only
            omega
      · cases h
  · cases h

theorem readScheduleLine_blocks {line : Str} {nb : List ScheduleBlock}
    (h : readScheduleLine line = .ok (.addBlocks nb)) :
    ∀ b ∈ nb, blockStartLEEnd b := by
  unfold readScheduleLine at h
  repeat' split at h
  all_goals
    first
      | cases h
      | exact readScheduleTimes_blocks h

theorem readScheduleLines_blocks :
    ∀ (ls : List Str) (d : Int) (bs : List ScheduleBlock) (d2 : Int) (bs2 : List ScheduleBlock),
      (∀ b ∈ bs, blockStartLEEnd b) →
      readScheduleLines ls d bs = .ok (d2, bs2) →
      ∀ b ∈ bs2, blockStartLEEnd b := by
  intro ls
  induction ls with
  | nil =>
    intro d bs d2 bs2 hb h
    cases h
    exact hb
  | cons line rest ih =>
    intro d bs d2 bs2 hb h
    unfold readScheduleLines at h
    split at h
    · cases h
    · exact ih _ _ _ _ hb h
    · exact ih _ _ _ _ hb h
    · rename_i nb hline
      refine ih _ _ _ _ ?_ h
      intro b hmem
      rw [List.mem_append] at hmem
      rcases hmem with hmem | hmem
      · exact hb b hmem
      · exact readScheduleLine_blocks hline b hmem

theorem readSchedule_blocks {lines : List Str} {s : Schedule} (h : readSchedule lines = .ok s) :
    ∀ b ∈ s.blocks, blockStartLEEnd b := by
  unfold readSchedule at h
  split at h
  · cases h
  · rename_i d bs heq
    split at h
    · cases h
    · split at h
      · cases h
        intro b hb
        have hbs : b ∈ bs := (List.perm_insertionSort blockLEb bs).mem_iff.mp hb
        exact readScheduleLines_blocks lines 0 [] d bs (by intro b2 hb2; cases hb2) heq b hbs
      · cases h

theorem overlapCheck_chain : ∀ l : List ScheduleBlock, overlapCheck l = true → List.Chain' adjOK l := by
  intro l
  induction l with
  | nil => intro _; trivial
  | cons a rest ih =>
    cases rest with
    | nil => intro _; simp
    | cons b rest2 =>
      intro h
      unfold overlapCheck at h
      rw [Bool.and_eq_true] at h
      rw [List.chain'_cons]
      refine ⟨?_, ih h.2⟩
      intro hw
      have h1 := h.1
      simp only [hw, bne_self_eq_false, Bool.false_or, Bool.not_eq_true', Bool.or_eq_false_iff,
        decide_eq_false_iff_not, not_lt, Bool.and_eq_false_iff, beq_eq_false_iff_ne, ne_eq] at h1
      unfold timeLE
      omega

theorem head_reaches :
    ∀ (l : List ScheduleBlock) (a : ScheduleBlock),
      blockStartLEEnd a → (∀ c ∈ l, blockStartLEEnd c) → (∀ c ∈ l, blockLE a c) →
      List.Pairwise blockLE l → List.Chain' adjOK (a :: l) →
      ∀ c ∈ l, a.weekday = c.weekday →
        timeLE a.endHour a.endMinute c.startHour c.startMinute := by
  intro l
  induction l with
  | nil =>
    intro a _ _ _ _ _ c hc
    cases hc
  | cons b rest ih =>
    intro a ha hval hle hpw hch c hc hw
    rw [List.chain'_cons] at hch
    rcases List.mem_cons.mp hc with rfl | hc2
    · exact hch.1 hw
    · have hab : blockLE a b := hle b (List.mem_cons_self _ _)
      have hbc : blockLE b c := (List.pairwise_cons.mp hpw).1 c hc2
      have hwb : a.weekday = b.weekday := by
        have h1 := blockLE_weekday hab
        have h2 := blockLE_weekday hbc
        omega
      have h1 : timeLE a.endHour a.endMinute b.startHour b.startMinute := hch.1 hwb
      have h2 : timeLE b.startHour b.startMinute b.endHour b.endMinute :=
        hval b (List.mem_cons_self _ _)
      have h3 : timeLE b.endHour b.endMinute c.startHour c.startMinute := by
        refine ih b (hval b (List.mem_cons_self _ _)) ?_ ?_ ?_ hch.2 c hc2 (by omega)
        · intro d hd
          exact hval d (List.mem_cons_of_mem _ hd)
        · exact (List.pairwise_cons.mp hpw).1
        · exact (List.pairwise_cons.mp hpw).2
      exact timeLE_trans h1 (timeLE_trans h2 h3)

theorem pairwise_sameDayDisjoint :
    ∀ l : List ScheduleBlock, (∀ b ∈ l, blockStartLEEnd b) → List.Pairwise blockLE l →
      List.Chain' adjOK l →
      List.Pairwise (fun a b => a.weekday = b.weekday → sameDayDisjoint a b) l := by
  intro l
  induction l with
  | nil => intro _ _ _; exact List.Pairwise.nil
  | cons a rest ih =>
    intro hval hpw hch
    rw [List.pairwise_cons] at hpw ⊢
    refine ⟨?_, ih (fun d hd => hval d (List.mem_cons_of_mem _ hd)) hpw.2 hch.tail⟩
    intro c hc hw
    left
    exact head_reaches rest a (hval a (List.mem_cons_self _ _))
      (fun d hd => hval d (List.mem_cons_of_mem _ hd)) hpw.1 hpw.2 hch c hc hw

/-- Counterexample for C7: the zero-length block line `"mon 0800-0800: 100k"`
is accepted by `readSchedule`, although the claim requires it to be
rejected — the source's check only rejects an end time strictly earlier
than the start time. -/
theorem claim_C7_counterexample :
    readSchedule [("mon 0800-0800: 100k".toList)] = .ok ⟨0, [⟨1, 8, 0, 8, 0, 100000⟩]⟩ := by
  decide

/-- C7 (amended).  `readSchedule` rejects a block line whose end time is
strictly earlier than its start time on the same day (in particular every
overnight range), but accepts end == start; consequently every accepted
block satisfies start ≤ end (not start < end). -/
theorem claim_C7 :
    (∀ (lines : List Str) (s : Schedule), readSchedule lines = .ok s →
      ∀ b ∈ s.blocks, blockStartLEEnd b) ∧
    readSchedule [("mon 2300-0100: 100k".toList)] = .error ("invalid format (bad time spec)") ∧
    readSchedule [("mon 0900-0800: 100k".toList)] = .error ("invalid format (bad time spec)") :=
  ⟨fun _ _ h => readSchedule_blocks h, by decide, by decide⟩

/-- Witness for C7 on a concrete accepted schedule. -/
theorem claim_C7_witness :
    readSchedule [("tue 0800-0930: 1m".toList)] = .ok ⟨0, [⟨2, 8, 0, 9, 30, 1000000⟩]⟩ ∧
    blockStartLEEnd ⟨2, 8, 0, 9, 30, 1000000⟩ :=
  ⟨by decide,
    claim_C7.1 [("tue 0800-0930: 1m".toList)] ⟨0, [⟨2, 8, 0, 9, 30, 1000000⟩]⟩ (by decide)
      ⟨2, 8, 0, 9, 30, 1000000⟩ (by decide)⟩

/-- C6.  Every schedule accepted by `readSchedule` has its blocks sorted by
`(weekday, startHour, startMinute)` and no two blocks on the same weekday
have overlapping half-open time ranges; a file whose blocks overlap on the
same weekday fails loading with "time ranges are not allowed to overlap"
(scenario S4). -/
theorem claim_C6 :
    (∀ (lines : List Str) (s : Schedule), readSchedule lines = .ok s →
      List.Pairwise blockLE s.blocks ∧
      List.Pairwise (fun a b => a.weekday = b.weekday → sameDayDisjoint a b) s.blocks) ∧
    readSchedule [("mon 0800-0900: 100k".toList), ("mon 0830-1000: 200k".toList)] =
      .error ("time ranges are not allowed to overlap") := by
  constructor
  · intro lines s h
    have hval := readSchedule_blocks h
    unfold readSchedule at h
    split at h
    · cases h
    · rename_i d bs heq
      split at h
      · cases h
      · split at h
        · rename_i hovl
          cases h
          have hsorted : List.Pairwise blockLEb (sortBlocks bs) :=
            List.sorted_insertionSort blockLEb bs
          have hple : List.Pairwise blockLE (sortBlocks bs) :=
            hsorted.imp (fun hab => (blockLEb_iff _ _).mp hab)
          exact ⟨hple,
            pairwise_sameDayDisjoint _ (fun b hb => hval b hb) hple
              (overlapCheck_chain _ hovl)⟩
        · cases h
  · decide

/-- Witness for C6 on a concrete accepted two-block schedule. -/
theorem claim_C6_witness :
    readSchedule [("mon 0800-0900: 100k".toList), ("mon 0900-1000: 200k".toList)] =
      .ok ⟨0, [⟨1, 8, 0, 9, 0, 100000⟩, ⟨1, 9, 0, 10, 0, 200000⟩]⟩ ∧
    List.Pairwise blockLE [(⟨1, 8, 0, 9, 0, 100000⟩ : ScheduleBlock), ⟨1, 9, 0, 10, 0, 200000⟩] ∧
    List.Pairwise (fun a b => a.weekday = b.weekday → sameDayDisjoint a b)
      [(⟨1, 8, 0, 9, 0, 100000⟩ : ScheduleBlock), ⟨1, 9, 0, 10, 0, 200000⟩] :=
  ⟨by decide,
    (claim_C6.1 [("mon 0800-0900: 100k".toList), ("mon 0900-1000: 200k".toList)]
      ⟨0, [⟨1, 8, 0, 9, 0, 100000⟩, ⟨1, 9, 0, 10, 0, 200000⟩]⟩ (by decide)).1,
    (claim_C6.1 [("mon 0800-0900: 100k".toList), ("mon 0900-1000: 200k".toList)]
      ⟨0, [⟨1, 8, 0, 9, 0, 100000⟩, ⟨1, 9, 0, 10, 0, 200000⟩]⟩ (by decide)).2⟩

theorem wrap64_mul10000_pow {j : Nat} (h : j ≤ 49) :
    wrap64 (10000 * (2:Int) ^ j) = 10000 * 2 ^ j := by
  have hp2 : ((2:Int) ^ j) ≤ 2 ^ 49 := pow_le_pow_right₀ (by norm_num) h
  have hp0 : (0:Int) < 2 ^ j := pow_pos (by norm_num) j
  have hb : ((2:Int) ^ 49) = 562949953421312 := by norm_num
  unfold wrap64
  omega

theorem wrap64_double_pow {j : Nat} (h : j ≤ 49) :
    wrap64 (2 * (2:Int) ^ j) = 2 ^ (j + 1) := by
  have h1 : (2:Int) * 2 ^ j = 2 ^ (j + 1) := by ring
  rw [h1]
  have hp2 : ((2:Int) ^ (j + 1)) ≤ 2 ^ 50 := pow_le_pow_right₀ (by norm_num) (by omega)
  have hp0 : (0:Int) < 2 ^ (j + 1) := pow_pos (by norm_num) _
  have hb : ((2:Int) ^ 50) = 1125899906842624 := by norm_num
  unfold wrap64
  omega

theorem partSizeLoop_regA :
    ∀ (fuel j : Nat) (fs : Int), 23 ≤ j → j ≤ 49 → 0 ≤ fs →
      fs ≤ 10000 * 2 ^ 49 → 50 - j ≤ fuel →
      ∃ m : Nat, partSizeLoop fuel (2 ^ j) fs = some (2 ^ (j + m)) ∧ j + m ≤ 49 ∧
        fs ≤ 10000 * 2 ^ (j + m) ∧ ∀ i : Nat, i < m → 10000 * 2 ^ (j + i) < fs := by
  intro fuel
  induction fuel with
  | zero =>
    intro j fs h23 h49 h0 hub hf
    omega
  | succ n ih =>
    intro j fs h23 h49 h0 hub hf
    have hw1 : wrap64 (10000 * (2:Int) ^ j) = 10000 * 2 ^ j := wrap64_mul10000_pow h49
    simp only [partSizeLoop, hw1]
    by_cases hg : 10000 * (2:Int) ^ j < fs
    · rw [if_pos hg]
      have hj49 : j < 49 := by
        by_contra hcon
        have hj : j = 49 := by omega
        subst hj
        omega
      rw [wrap64_double_pow h49]
      obtain ⟨m, hm, hle, hub2, hmin⟩ := ih (j + 1) fs (by omega) (by omega) h0 hub (by omega)
      refine ⟨m + 1, ?_, by omega, ?_, ?_⟩
      · rw [show j + (m + 1) = (j + 1) + m by omega]
        exact hm
      · rw [show j + (m + 1) = (j + 1) + m by omega]
        exact hub2
      · intro i hi
        cases i with
        | zero => simpa using hg
        | succ i2 =>
          rw [show j + (i2 + 1) = (j + 1) + i2 by omega]
          exact hmin i2 (by omega)
    · rw [if_neg hg]
      refine ⟨0, by simp, by omega, ?_, ?_⟩
      · simpa using not_lt.mp hg
      · intro i hi
        omega

theorem partSizeLoop_regB :
    ∀ (fuel j : Nat) (fs : Int), 23 ≤ j → j ≤ 50 →
      10000 * 2 ^ 49 < fs → 50 - j ≤ fuel →
      partSizeLoop fuel (2 ^ j) fs = partSizeLoop (fuel - (50 - j)) (2 ^ 50) fs := by
  intro fuel
  induction fuel with
  | zero =>
    intro j fs h23 h50 hlb hf
    have hj : j = 50 := by omega
    subst hj
    simp
  | succ n ih =>
    intro j fs h23 h50 hlb hf
    by_cases hj : j = 50
    · subst hj
      simp
    · have h49 : j ≤ 49 := by omega
      have hg : wrap64 (10000 * (2:Int) ^ j) < fs := by
        rw [wrap64_mul10000_pow h49]
        have hp2 : ((2:Int) ^ j) ≤ 2 ^ 49 := pow_le_pow_right₀ (by norm_num) h49
        have hb : ((2:Int) ^ 49) = 562949953421312 := by norm_num
        omega
      simp only [partSizeLoop]
      rw [if_pos hg, wrap64_double_pow h49,
        ih (j + 1) fs (by omega) (by omega) hlb (by omega)]
      congr 1
      omega

theorem partSizeLoop_tail50 (fs : Int) (hlb : 10000 * (2:Int) ^ 49 < fs)
    (hub : fs ≤ 8142508126285856768) (k : Nat) :
    partSizeLoop (k + 3) (2 ^ 50) fs = some (2 ^ 52) := by
  have e1 : wrap64 (10000 * (2:Int) ^ 50) = -7187745005283311616 := by decide
  have e2 : wrap64 (2 * (2:Int) ^ 50) = 2 ^ 51 := by decide
  have e3 : wrap64 (10000 * (2:Int) ^ 51) = 4071254063142928384 := by decide
  have e4 : wrap64 (2 * (2:Int) ^ 51) = 2 ^ 52 := by decide
  have e5 : wrap64 (10000 * (2:Int) ^ 52) = 8142508126285856768 := by decide
  have hb : ((2:Int) ^ 49) = 562949953421312 := by norm_num
  have s1 : partSizeLoop (k + 3) (2 ^ 50) fs = partSizeLoop (k + 2) (2 ^ 51) fs := by
    rw [show k + 3 = (k + 2) + 1 from rfl]
    simp only [partSizeLoop]
    rw [if_pos (by rw [e1]; omega), e2]
  have s2 : partSizeLoop (k + 2) (2 ^ 51) fs = partSizeLoop (k + 1) (2 ^ 52) fs := by
    rw [show k + 2 = (k + 1) + 1 from rfl]
    simp only [partSizeLoop]
    rw [if_pos (by rw [e3]; omega), e4]
  have s3 : partSizeLoop (k + 1) (2 ^ 52) fs = some (2 ^ 52) := by
    simp only [partSizeLoop]
    rw [if_neg (by rw [e5]; omega)]
  rw [s1, s2, s3]

/-- Counterexample for C4: at the int64 file size 2^63 − 1 the doubling loop
never selects a part size — `10000 * partSize` overflows int64 once
`partSize` exceeds 2^49, the loop guard stays true, and `partSize` wraps
through 2^62 and −2^63 to the absorbing value 0 (see
`partSizeLoop_maxInt_diverges` for the fuel-independent statement). -/
theorem claim_C4_counterexample : autoPartSize 9223372036854775807 = none := by
  decide

/-- The int64 values the doubling loop visits at file size 2^63 − 1: the
powers 2^23 … 2^62, then the wrapped value −2^63, then 0 forever. -/
def partSizeLiveSet : List Int :=
  ((List.range 40).map (fun k => (2:Int) ^ (23 + k))) ++ [-9223372036854775808, 0]

theorem partSizeLiveSet_closed :
    ∀ p ∈ partSizeLiveSet,
      wrap64 (10000 * p) < 9223372036854775807 ∧ wrap64 (2 * p) ∈ partSizeLiveSet := by
  decide

theorem partSizeLoop_maxInt_none :
    ∀ (fuel : Nat) (p : Int), p ∈ partSizeLiveSet →
      partSizeLoop fuel p 9223372036854775807 = none := by
  intro fuel
  induction fuel with
  | zero =>
    intro p _
    rfl
  | succ n ih =>
    intro p hp
    have h := partSizeLiveSet_closed p hp
    simp only [partSizeLoop]
    rw [if_pos h.1]
    exact ih _ h.2

/-- At file size 2^63 − 1 the Go part-size loop runs forever: no fuel bound
makes it produce a value. -/
theorem partSizeLoop_maxInt_diverges :
    ∀ fuel : Nat, partSizeLoop fuel (8 * MiB) 9223372036854775807 = none := by
  intro fuel
  exact partSizeLoop_maxInt_none fuel _ (by decide)

/-- C4 (amended).  For every fileSize with 0 ≤ fileSize ≤ 8142508126285856768
(beyond which the int64 doubling loop never terminates), the automatic part
size is the smallest value of the form 8 MiB · 2^k with
10000 · partSize ≥ fileSize, or 5 GiB when no such value is at most 5 GiB;
the selected value is always inside [5 MiB, 5 GiB], so the out-of-range
warning check can only warn, never fail, on the automatic path. -/
theorem claim_C4 (fileSize : Int) (h0 : 0 ≤ fileSize)
    (hB : fileSize ≤ 8142508126285856768) :
    ((∃ k : Nat, autoPartSize fileSize = some (8 * MiB * 2 ^ k) ∧
        8 * MiB * 2 ^ k ≤ 5 * GiB ∧ fileSize ≤ 10000 * (8 * MiB * 2 ^ k) ∧
        ∀ j : Nat, j < k → 10000 * (8 * MiB * 2 ^ j) < fileSize) ∨
      (autoPartSize fileSize = some (5 * GiB) ∧
        ∀ j : Nat, 8 * MiB * 2 ^ j ≤ 5 * GiB → 10000 * (8 * MiB * 2 ^ j) < fileSize)) ∧
    (∀ p : Int, autoPartSize fileSize = some p → partSizeWarn p = false) := by
  have e8 : (8:Int) * MiB = 2 ^ 23 := by norm_num [MiB, kiB]
  rcases le_or_lt fileSize (10000 * 2 ^ 49) with hA | hBB
  · obtain ⟨m, hm, hle49, hub2, hmin⟩ :=
      partSizeLoop_regA 100 23 fileSize (by norm_num) (by norm_num) h0 hA (by norm_num)
    have hauto : autoPartSize fileSize =
        some (if 5 * GiB < 2 ^ (23 + m) then 5 * GiB else 2 ^ (23 + m)) := by
      unfold autoPartSize
      rw [e8, hm]
      rfl
    by_cases hcap : (5:Int) * GiB < 2 ^ (23 + m)
    · refine ⟨Or.inr ⟨?_, ?_⟩, ?_⟩
      · rw [hauto, if_pos hcap]
      · intro j hj
        have hj2 : (2:Int) ^ (23 + j) ≤ 5 * GiB := by
          rw [show (2:Int) ^ (23 + j) = 8 * MiB * 2 ^ j by rw [pow_add, ← e8]]
          exact hj
        have hjm : 23 + j < 23 + m :=
          (pow_lt_pow_iff_right₀ (by norm_num)).mp (lt_of_le_of_lt hj2 hcap)
        have hlt := hmin j (by omega)
        rw [show (2:Int) ^ (23 + j) = 8 * MiB * 2 ^ j by rw [pow_add, ← e8]] at hlt
        exact hlt
      · intro p hp
        rw [hauto, if_pos hcap] at hp
        have hpe : p = 5 * GiB := (Option.some.inj hp).symm
        subst hpe
        decide
    · refine ⟨Or.inl ⟨m, ?_, ?_, ?_, ?_⟩, ?_⟩
      · rw [hauto, if_neg hcap]
        congr 1
        rw [pow_add, ← e8]
      · rw [show (8:Int) * MiB * 2 ^ m = 2 ^ (23 + m) by rw [pow_add, ← e8]]
        exact not_lt.mp hcap
      · rw [show (8:Int) * MiB * 2 ^ m = 2 ^ (23 + m) by rw [pow_add, ← e8]]
        exact hub2
      · intro j hj
        have hlt := hmin j hj
        rw [show (2:Int) ^ (23 + j) = 8 * MiB * 2 ^ j by rw [pow_add, ← e8]] at hlt
        exact hlt
      · intro p hp
        rw [hauto, if_neg hcap] at hp
        have hpe : p = 2 ^ (23 + m) := (Option.some.inj hp).symm
        subst hpe
        have hlow : (2:Int) ^ 23 ≤ 2 ^ (23 + m) := pow_le_pow_right₀ (by norm_num) (by omega)
        have hhigh : (2:Int) ^ (23 + m) ≤ 5 * GiB := not_lt.mp hcap
        have h23 : ((2:Int) ^ 23) = 8388608 := by norm_num
        have hMiB : (5:Int) * MiB = 5242880 := by norm_num [MiB, kiB]
        simp only [partSizeWarn, Bool.or_eq_false_iff, decide_eq_false_iff_not, not_lt]
        exact ⟨by omega, hhigh⟩
  · have hreg := partSizeLoop_regB 100 23 fileSize (by norm_num) (by norm_num) hBB (by norm_num)
    have htail := partSizeLoop_tail50 fileSize hBB hB 70
    have hauto : autoPartSize fileSize = some (5 * GiB) := by
      unfold autoPartSize
      rw [e8, hreg, show (100:Nat) - (50 - 23) = 70 + 3 from rfl, htail]
      simp only [Option.map_some']
      rw [if_pos (by norm_num [GiB, MiB, kiB])]
    refine ⟨Or.inr ⟨hauto, ?_⟩, ?_⟩
    · intro j hj
      have h1 : (10000:Int) * (8 * MiB * 2 ^ j) ≤ 10000 * (5 * GiB) :=
        mul_le_mul_of_nonneg_left hj (by norm_num)
      have h2 : (10000:Int) * (5 * GiB) = 53687091200000 := by norm_num [GiB, MiB, kiB]
      have hb49 : ((2:Int) ^ 49) = 562949953421312 := by norm_num
      omega
    · intro p hp
      rw [hauto] at hp
      have hpe : p = 5 * GiB := (Option.some.inj hp).symm
      subst hpe
      decide

/-- Witness for C4 at fileSize = 16 MiB (scenario S1's size): the selected
part size is 8 MiB, the smallest admissible value. -/
theorem claim_C4_witness :
    ((0:Int) ≤ 16777216 ∧ (16777216:Int) ≤ 8142508126285856768) ∧
    (((∃ k : Nat, autoPartSize 16777216 = some (8 * MiB * 2 ^ k) ∧
        8 * MiB * 2 ^ k ≤ 5 * GiB ∧ (16777216:Int) ≤ 10000 * (8 * MiB * 2 ^ k) ∧
        ∀ j : Nat, j < k → 10000 * (8 * MiB * 2 ^ j) < 16777216) ∨
      (autoPartSize 16777216 = some (5 * GiB) ∧
        ∀ j : Nat, 8 * MiB * 2 ^ j ≤ 5 * GiB → 10000 * (8 * MiB * 2 ^ j) < 16777216)) ∧
    (∀ p : Int, autoPartSize 16777216 = some p → partSizeWarn p = false)) :=
  ⟨⟨by norm_num, by norm_num⟩, claim_C4 16777216 (by norm_num) (by norm_num)⟩
